import Mathlib

/-!
Verification development for the norns-web softcut engine and tempo clock.

The definitions below are a shallow embedding of the JavaScript source:

* `SoftcutProcessor` in `src/scripts/amen.js` (the AudioWorklet engine):
  buffers, voice state, command handling (`_handleMessage`) and the per-frame
  kernel (`process`).
* the control API in `src/lib/softcut.js` (`_sendVoice` and the voice-targeted
  calls).
* the tempo clock in `src/lib/midi.js` (`_getBeats`, `_accurateSleep`,
  `clock.sync`, `clock.run` / `clock.cancel`).

JavaScript numbers are modelled as `ℚ` (all arithmetic the claims touch is
exact), `Float32Array` buffers as total functions `ℕ → ℚ` (a write at a
negative index on a typed array is a silent no-op, which the model reproduces
by never matching a natural index), and the 0/1 flags stored in voice fields
as `Bool`. The equal-power pan gains (`Math.cos`/`Math.sin`) and the stereo
accumulation are the only parts of the kernel not reproduced, since they are
transcendental and no claim below mentions them; the pre-pan values `sample`
and `out` are.
-/

namespace Softcut

/-- `SAMPLE_RATE` in `amen.js` (also the AudioWorklet global `sampleRate`,
fixed at 48000 by `softcut.init`). -/
def SAMPLE_RATE : ℚ := 48000

/-- `BUF_DURATION` (seconds). -/
def BUF_DURATION : ℚ := 350

/-- `BUF_FRAMES = SAMPLE_RATE * BUF_DURATION`, as an integer sample count. -/
def BUF_FRAMES : ℤ := 48000 * 350

/-- Per-voice state, mirroring the object literal built in the
`SoftcutProcessor` constructor. -/
structure Voice where
  enabled : Bool
  playing : Bool
  buffer : Fin 2
  rate : ℚ
  level : ℚ
  pan : ℚ
  position : ℚ
  phase : ℚ
  loop : Bool
  loop_start : ℚ
  loop_end : ℚ
  fade_time : ℚ
  level_slew_time : ℚ
  level_target : ℚ
  /-- JS field `rec` (renamed: `rec` is reserved for the recursor). -/
  recording : Bool
  rec_level : ℚ
  pre_level : ℚ
  phase_quant : ℚ
  phase_accum : ℚ
  deriving DecidableEq, Repr

/-- The voice defaults written by the constructor; the `reset` command writes
exactly the same values back into every field. -/
def defaultVoice (i : ℕ) : Voice where
  enabled := false
  playing := false
  buffer := if i < 3 then 0 else 1
  rate := 1
  level := 1
  pan := 0
  position := 0
  phase := 0
  loop := false
  loop_start := 0
  loop_end := BUF_DURATION
  fade_time := 0.01
  level_slew_time := 0
  level_target := 1
  recording := false
  rec_level := 1
  pre_level := 0
  phase_quant := 0
  phase_accum := 0

/-- Engine state: the two mono buffers, the six voices and the global
phase-polling flag. -/
structure Engine where
  buffers : Fin 2 → ℕ → ℚ
  voices : Fin 6 → Voice
  phasePolling : Bool

/-- The engine as built by the `SoftcutProcessor` constructor:
zeroed buffers, default voices, polling off. -/
def engineInit : Engine where
  buffers := fun _ _ => 0
  voices := fun i => defaultVoice i
  phasePolling := false

/-- Events posted from the audio thread back to the control thread. -/
inductive EngineEvent where
  | phase (voice : ℕ) (pos : ℚ)
  | buffer_data (ch : Fin 2) (data : List ℚ)
  deriving DecidableEq, Repr

/-- Commands accepted by `_handleMessage` (one constructor per `case`). -/
inductive Msg where
  | enable (voice : Fin 6) (value : Bool)
  | play (voice : Fin 6) (value : Bool)
  | buffer (voice : Fin 6) (value : Fin 2)
  | rate (voice : Fin 6) (value : ℚ)
  | level (voice : Fin 6) (value : ℚ)
  | pan (voice : Fin 6) (value : ℚ)
  | position (voice : Fin 6) (value : ℚ)
  | loop (voice : Fin 6) (value : Bool)
  | loop_start (voice : Fin 6) (value : ℚ)
  | loop_end (voice : Fin 6) (value : ℚ)
  | fade_time (voice : Fin 6) (value : ℚ)
  | level_slew_time (voice : Fin 6) (value : ℚ)
  | recording (voice : Fin 6) (value : Bool)
  | rec_level (voice : Fin 6) (value : ℚ)
  | pre_level (voice : Fin 6) (value : ℚ)
  | phase_quant (voice : Fin 6) (value : ℚ)
  | poll_start_phase
  | poll_stop_phase
  | buffer_clear
  | buffer_clear_channel (ch : Fin 2)
  | buffer_clear_region (start dur : ℚ)
  | buffer_load (ch : Fin 2) (start_dst : ℚ) (data : List ℚ)
  | buffer_read (ch : Fin 2) (start dur : ℚ)
  | reset

/-- A single typed-array store `buf[i] = x`: a no-op unless `i` is a valid
(non-negative) index. -/
def writeAt (buf : ℕ → ℚ) (i : ℤ) (x : ℚ) : ℕ → ℚ :=
  fun j => if (j : ℤ) = i then x else buf j

/-- The inner loop of `buffer_clear_region`: `n` iterations of
`buf[i] = 0; i++`, starting at sample index `i`. -/
def clearLoop (buf : ℕ → ℚ) (i : ℤ) : ℕ → (ℕ → ℚ)
  | 0 => buf
  | n + 1 => clearLoop (writeAt buf i 0) (i + 1) n

/-- `for (let i = startSamp; i < endSamp && i < BUF_FRAMES; i++) buf[i] = 0`. -/
def clearRegionBuf (buf : ℕ → ℚ) (startSamp endSamp : ℤ) : ℕ → ℚ :=
  clearLoop buf startSamp (min endSamp BUF_FRAMES - startSamp).toNat

/-- The copy loop of `buffer_load`: writes the first `n` entries of `data`
starting at destination index `dst`. -/
def loadLoop (buf : ℕ → ℚ) (dst : ℤ) : List ℚ → ℕ → (ℕ → ℚ)
  | _, 0 => buf
  | [], _ + 1 => buf
  | x :: xs, n + 1 => loadLoop (writeAt buf dst x) (dst + 1) xs n

/-- `Float32Array.slice(start, start + len)`-style read used by
`buffer_read` (indices outside the buffer are simply absent). -/
def sliceBuf (buf : ℕ → ℚ) (start len : ℤ) : List ℚ :=
  let s0 := max 0 (min start BUF_FRAMES)
  let e0 := max 0 (min (start + len) BUF_FRAMES)
  (List.range (e0 - s0).toNat).map (fun k => buf (s0 + k).toNat)

/-- Apply `f` to voice `i`, leaving the rest of the engine unchanged
(`this.voices[msg.voice].field = …`). -/
def updateVoice (s : Engine) (i : Fin 6) (f : Voice → Voice) : Engine :=
  { s with voices := Function.update s.voices i (f (s.voices i)) }

/-- `SoftcutProcessor._handleMessage`, returning the new engine state and the
events posted while handling the command. -/
def handleMessage (s : Engine) (m : Msg) : Engine × List EngineEvent :=
  match m with
  | .enable v x => (updateVoice s v (fun vc => { vc with enabled := x }), [])
  | .play v x => (updateVoice s v (fun vc => { vc with playing := x }), [])
  | .buffer v x => (updateVoice s v (fun vc => { vc with buffer := x }), [])
  | .rate v x => (updateVoice s v (fun vc => { vc with rate := x }), [])
  | .level v x =>
      (updateVoice s v (fun vc =>
        if vc.level_slew_time ≤ 0 then { vc with level_target := x, level := x }
        else { vc with level_target := x }), [])
  | .pan v x => (updateVoice s v (fun vc => { vc with pan := x }), [])
  | .position v x =>
      (updateVoice s v (fun vc => { vc with phase := x * SAMPLE_RATE }), [])
  | .loop v x => (updateVoice s v (fun vc => { vc with loop := x }), [])
  | .loop_start v x => (updateVoice s v (fun vc => { vc with loop_start := x }), [])
  | .loop_end v x => (updateVoice s v (fun vc => { vc with loop_end := x }), [])
  | .fade_time v x => (updateVoice s v (fun vc => { vc with fade_time := x }), [])
  | .level_slew_time v x =>
      (updateVoice s v (fun vc => { vc with level_slew_time := x }), [])
  | .recording v x => (updateVoice s v (fun vc => { vc with recording := x }), [])
  | .rec_level v x => (updateVoice s v (fun vc => { vc with rec_level := x }), [])
  | .pre_level v x => (updateVoice s v (fun vc => { vc with pre_level := x }), [])
  | .phase_quant v x => (updateVoice s v (fun vc => { vc with phase_quant := x }), [])
  | .poll_start_phase => ({ s with phasePolling := true }, [])
  | .poll_stop_phase => ({ s with phasePolling := false }, [])
  | .buffer_clear => ({ s with buffers := fun _ _ => 0 }, [])
  | .buffer_clear_channel ch =>
      ({ s with buffers := Function.update s.buffers ch (fun _ => 0) }, [])
  | .buffer_clear_region start dur =>
      let startSamp := ⌊start * SAMPLE_RATE⌋
      let endSamp := ⌊(start + dur) * SAMPLE_RATE⌋
      ({ s with buffers := fun b => clearRegionBuf (s.buffers b) startSamp endSamp }, [])
  | .buffer_load ch start_dst data =>
      let dst := ⌊start_dst * SAMPLE_RATE⌋
      let len := (min (data.length : ℤ) (BUF_FRAMES - dst)).toNat
      ({ s with buffers := Function.update s.buffers ch (loadLoop (s.buffers ch) dst data len) }, [])
  | .buffer_read ch start dur =>
      let readStart := ⌊start * SAMPLE_RATE⌋
      let readLen := ⌊dur * SAMPLE_RATE⌋
      (s, [.buffer_data ch (sliceBuf (s.buffers ch) readStart readLen)])
  | .reset =>
      ({ buffers := fun _ _ => 0
         voices := fun i => defaultVoice i
         phasePolling := s.phasePolling }, [])

end Softcut

namespace Softcut

/-- Samples-domain views of the per-voice loop parameters, hoisted at the top
of the per-voice section of `process`. -/
def loopStartSamp (v : Voice) : ℚ := v.loop_start * SAMPLE_RATE

/-- `loopEndSamp = voice.loop_end * sampleRate`. -/
def loopEndSamp (v : Voice) : ℚ := v.loop_end * SAMPLE_RATE

/-- `loopLen = loopEndSamp - loopStartSamp`. -/
def loopLen (v : Voice) : ℚ := loopEndSamp v - loopStartSamp v

/-- `fadeSamples = voice.fade_time * sampleRate`. -/
def fadeSamples (v : Voice) : ℚ := v.fade_time * SAMPLE_RATE

/-- The level-slew step at the top of the frame loop: returns the new
`voice.level`. -/
def slewLevel (v : Voice) : ℚ :=
  if v.level = v.level_target then v.level
  else
    let slewRate := if v.level_slew_time > 0 then 1 / (v.level_slew_time * SAMPLE_RATE) else 1
    let diff := v.level_target - v.level
    if |diff| < slewRate then v.level_target
    else v.level + (if diff > 0 then 1 else if diff < 0 then -1 else 0) * slewRate

/-- The interpolated read: `idx0 = Math.floor(phase)`, `frac = phase - idx0`,
`idx1 = idx0 + 1`, with the two in-range guards of the source. -/
def readSample (buf : ℕ → ℚ) (phase : ℚ) : ℚ :=
  let idx0 := ⌊phase⌋
  let frac := phase - idx0
  let idx1 := idx0 + 1
  if 0 ≤ idx0 ∧ idx1 < BUF_FRAMES then
    buf idx0.toNat * (1 - frac) + buf idx1.toNat * frac
  else if 0 ≤ idx0 ∧ idx0 < BUF_FRAMES then
    buf idx0.toNat
  else 0

/-- Crossfade gain near the loop boundaries. -/
def fadeGain (v : Voice) : ℚ :=
  if v.loop ∧ fadeSamples v > 0 ∧ loopLen v > 0 then
    let distFromStart := v.phase - loopStartSamp v
    let distFromEnd := loopEndSamp v - v.phase
    if 0 ≤ distFromStart ∧ distFromStart < fadeSamples v then distFromStart / fadeSamples v
    else if 0 ≤ distFromEnd ∧ distFromEnd < fadeSamples v then distFromEnd / fadeSamples v
    else 1
  else 1

/-- The record step: `buf[recIdx] = rec_level * input + pre_level * buf[recIdx]`
at `recIdx = Math.floor(phase)` when the index is in range. -/
def recordWrite (buf : ℕ → ℚ) (v : Voice) (inSample : ℚ) : ℕ → ℚ :=
  if v.recording then
    let recIdx := ⌊v.phase⌋
    if 0 ≤ recIdx ∧ recIdx < BUF_FRAMES then
      writeAt buf recIdx (v.rec_level * inSample + v.pre_level * buf recIdx.toNat)
    else buf
  else buf

/-- Loop / boundary handling applied to the advanced phase `p`: returns the
new `(phase, playing)` pair. -/
def boundaryUpdate (v : Voice) (p : ℚ) : ℚ × Bool :=
  if v.loop ∧ loopLen v > 0 then
    if v.rate > 0 ∧ p ≥ loopEndSamp v then
      (loopStartSamp v + (p - loopEndSamp v), v.playing)
    else if v.rate < 0 ∧ p < loopStartSamp v then
      (loopEndSamp v - (loopStartSamp v - p), v.playing)
    else (p, v.playing)
  else
    (p, if p ≥ (BUF_FRAMES : ℚ) ∨ p < 0 then false else v.playing)

/-- The phase-reporting accumulator step, given the post-boundary phase
`newPhase`; returns the new `phase_accum` and the emitted events. Note the
source tests the threshold with a single `if`, so at most one quantum is
subtracted (and one event emitted) per frame. -/
def phaseReport (polling : Bool) (vIdx : ℕ) (v : Voice) (newPhase : ℚ) :
    ℚ × List EngineEvent :=
  if polling ∧ v.phase_quant > 0 then
    let a := v.phase_accum + |v.rate|
    let quantSamples := v.phase_quant * SAMPLE_RATE
    if a ≥ quantSamples then
      (a - quantSamples, [.phase vIdx (newPhase / SAMPLE_RATE)])
    else (a, [])
  else (v.phase_accum, [])

/-- Result of one frame of the kernel for one voice: the updated voice, the
(possibly written) buffer, the interpolated `sample`, the pre-pan `out`
value, and the emitted events. -/
structure FrameResult where
  voice : Voice
  buf : ℕ → ℚ
  sample : ℚ
  out : ℚ
  events : List EngineEvent

/-- One iteration of the inner frame loop of `SoftcutProcessor.process` for an
enabled voice: level slew, then (if playing) interpolated read, crossfade
gain, record write, phase advance, boundary handling and phase reporting.
The equal-power pan and the `outL`/`outR` accumulation are omitted (they
involve `cos`/`sin` and no claim mentions them); `out` is the pre-pan value
`sample * level * fadeGain`. -/
def frameStep (polling : Bool) (buf : ℕ → ℚ) (vIdx : ℕ) (inSample : ℚ)
    (v : Voice) : FrameResult :=
  let lv := slewLevel v
  if v.playing then
    let sample := readSample buf v.phase
    let fg := fadeGain v
    let buf' := recordWrite buf v inSample
    let p1 := v.phase + v.rate
    let pb := boundaryUpdate v p1
    let pr := phaseReport polling vIdx v pb.1
    { voice := { v with level := lv, phase := pb.1, playing := pb.2, phase_accum := pr.1 }
      buf := buf'
      sample := sample
      out := sample * lv * fg
      events := pr.2 }
  else
    { voice := { v with level := lv }, buf := buf, sample := 0, out := 0, events := [] }

/-- Result of running the kernel over a block for one voice. -/
structure ProcResult where
  voice : Voice
  buf : ℕ → ℚ
  events : List EngineEvent

/-- The frame loop of `process` for one enabled voice, over the block of
input samples `ins` (one mono input sample per frame). -/
def processVoice (polling : Bool) (vIdx : ℕ) :
    (ℕ → ℚ) → Voice → List ℚ → ProcResult
  | buf, v, [] => ⟨v, buf, []⟩
  | buf, v, a :: rest =>
    let r := frameStep polling buf vIdx a v
    let pr := processVoice polling vIdx r.buf r.voice rest
    ⟨pr.voice, pr.buf, r.events ++ pr.events⟩

/-- The per-voice step of `process`: `if (!voice.enabled) continue;` then run
the frame loop on the voice's buffer and store the results back. -/
def processVoiceIdx (s : Engine) (ins : List ℚ) (i : Fin 6) :
    Engine × List EngineEvent :=
  let vc := s.voices i
  if vc.enabled then
    let r := processVoice s.phasePolling (i : ℕ) (s.buffers vc.buffer) vc ins
    ({ s with
        voices := Function.update s.voices i r.voice
        buffers := Function.update s.buffers vc.buffer r.buf }, r.events)
  else (s, [])

/-- `SoftcutProcessor.process` over one block: all six voices in order
(output clearing and stereo accumulation omitted, see `frameStep`). -/
def engineProcess (s : Engine) (ins : List ℚ) : Engine × List EngineEvent :=
  (List.finRange 6).foldl
    (fun acc i =>
      let r := processVoiceIdx acc.1 ins i
      (r.1, acc.2 ++ r.2))
    (s, [])

end Softcut

namespace Clock

/-- `_getBeats()` in `midi.js`: `refBeats` when stopped, otherwise the
reference beat count advanced by elapsed wall time at `tempo/60` beats per
second (`now` is the monotonic `performance.now()/1000` reading). -/
def getBeats (running : Bool) (tempo refTime refBeats now : ℚ) : ℚ :=
  if running then (now - refTime) * (tempo / 60) + refBeats else refBeats

/-- Idealised duration of `_accurateSleep(seconds)`: the promise resolves
immediately for non-positive requests and otherwise suspends until
`targetTime = now + seconds` (the coarse-timer/spin split only affects
scheduling accuracy, not the target instant). -/
def accurateSleepSeconds (seconds : ℚ) : ℚ :=
  if seconds ≤ 0 then 0 else seconds

/-- Idealised duration (in seconds) for which `clock.sync(beat, offset)`
suspends its caller, as a function of the clock state at the call. When the
transport is stopped it sleeps `beat * (60 / tempo)`; otherwise it computes
the next grid instant `nextBeat` (bumped by one `beat` when within `0.0001`
beats of now) and sleeps the corresponding seconds. -/
def syncWaitSeconds (running : Bool) (tempo refTime refBeats now beat offset : ℚ) : ℚ :=
  if running = false then
    accurateSleepSeconds (beat * (60 / tempo))
  else
    let currentBeats := getBeats running tempo refTime refBeats now
    let nextBeat0 : ℚ := (⌈(currentBeats - offset) / beat⌉ : ℤ) * beat + offset
    let nextBeat := if nextBeat0 ≤ currentBeats + 0.0001 then nextBeat0 + beat else nextBeat0
    let secondsToWait := (nextBeat - currentBeats) * (60 / tempo)
    if secondsToWait > 0 then accurateSleepSeconds secondsToWait else 0

/-- A JavaScript error value, identified (as the task runner does) by its
`name`. -/
structure JsError where
  name : String
  deriving DecidableEq, Repr

/-- The cancellation sentinel `new DOMException("Aborted", "AbortError")`
with which `_accurateSleep` rejects. -/
def abortError : JsError := ⟨"AbortError"⟩

/-- The clock's coroutine bookkeeping: the `_coroutines` map (modelled by its
key list) and the set of ids whose `AbortController` has been aborted (the
signal outlives removal from the map). -/
structure Tasks where
  registry : List ℕ
  aborted : List ℕ
  deriving DecidableEq, Repr

/-- `clock.cancel(id)`: if the id is registered, abort its controller and
delete the entry; otherwise do nothing. -/
def cancel (s : Tasks) (id : ℕ) : Tasks :=
  if id ∈ s.registry then
    { registry := s.registry.erase id, aborted := id :: s.aborted }
  else s

/-- The `finally` block of the wrapper created by `clock.run`: the id is
removed from the registry when the task completes (normally or not). -/
def taskFinish (s : Tasks) (id : ℕ) : Tasks :=
  { s with registry := s.registry.erase id }

/-- Outcome of a pending `_accurateSleep` (and hence of `clock.sleep` or
`clock.sync`, which both await it): it rejects with `abortError` exactly when
the task's signal is aborted (either already at the call or by the `abort`
listener firing), and resolves otherwise. -/
def sleepOutcome (sigAborted : Bool) : Except JsError Unit :=
  if sigAborted then .error abortError else .ok ()

/-- Whether the `catch` block of the `clock.run` wrapper logs the failure:
every error is swallowed (the task terminates), and only non-`AbortError`
failures are logged. -/
def runCatchLogs (r : Except JsError Unit) : Bool :=
  match r with
  | .ok _ => false
  | .error e => if e.name = "AbortError" then false else true

end Clock

namespace SoftcutApi

/-- The message posted to the worklet port by `_sendVoice` in
`src/lib/softcut.js`. -/
structure VoiceMsg where
  cmd : String
  voice : ℤ
  value : ℚ
  deriving DecidableEq, Repr

/-- `_sendVoice(cmd, voice, value)`: posts `{cmd, voice: voice - 1, value}`.
`some` means a command was enqueued to the engine (`_send` posts whenever the
worklet node exists, i.e. after `init`); there is no validation of any kind. -/
def sendVoice (cmd : String) (voice : ℤ) (value : ℚ) : Option VoiceMsg :=
  some ⟨cmd, voice - 1, value⟩

/-- `softcut.enable(voice, state)`. -/
def enable (voice : ℤ) (state : Bool) : Option VoiceMsg :=
  sendVoice "enable" voice (if state then 1 else 0)

/-- `softcut.play(voice, state)`. -/
def play (voice : ℤ) (state : Bool) : Option VoiceMsg :=
  sendVoice "play" voice (if state then 1 else 0)

/-- `softcut.rec(voice, state)`. -/
def recSet (voice : ℤ) (state : Bool) : Option VoiceMsg :=
  sendVoice "rec" voice (if state then 1 else 0)

/-- `softcut.buffer(voice, buf)` (the `buffer_select` call; buffers are
1-based at the API). -/
def bufferSelect (voice : ℤ) (buf : ℚ) : Option VoiceMsg :=
  sendVoice "buffer" voice (buf - 1)

/-- `softcut.rate(voice, rate)`. -/
def rate (voice : ℤ) (r : ℚ) : Option VoiceMsg := sendVoice "rate" voice r

/-- `softcut.level(voice, amp)`. -/
def level (voice : ℤ) (amp : ℚ) : Option VoiceMsg := sendVoice "level" voice amp

/-- `softcut.pan(voice, pos)`. -/
def pan (voice : ℤ) (pos : ℚ) : Option VoiceMsg := sendVoice "pan" voice pos

/-- `softcut.position(voice, pos)`. -/
def position (voice : ℤ) (pos : ℚ) : Option VoiceMsg := sendVoice "position" voice pos

/-- `softcut.loop(voice, state)`. -/
def loopSet (voice : ℤ) (state : Bool) : Option VoiceMsg :=
  sendVoice "loop" voice (if state then 1 else 0)

/-- `softcut.loop_start(voice, pos)`. -/
def loop_start (voice : ℤ) (pos : ℚ) : Option VoiceMsg := sendVoice "loop_start" voice pos

/-- `softcut.loop_end(voice, pos)`. -/
def loop_end (voice : ℤ) (pos : ℚ) : Option VoiceMsg := sendVoice "loop_end" voice pos

/-- `softcut.fade_time(voice, time)`. -/
def fade_time (voice : ℤ) (time : ℚ) : Option VoiceMsg := sendVoice "fade_time" voice time

/-- `softcut.level_slew_time(voice, time)`. -/
def level_slew_time (voice : ℤ) (time : ℚ) : Option VoiceMsg :=
  sendVoice "level_slew_time" voice time

/-- `softcut.rec_level(voice, amp)`. -/
def rec_level (voice : ℤ) (amp : ℚ) : Option VoiceMsg := sendVoice "rec_level" voice amp

/-- `softcut.pre_level(voice, amp)`. -/
def pre_level (voice : ℤ) (amp : ℚ) : Option VoiceMsg := sendVoice "pre_level" voice amp

/-- `softcut.phase_quant(voice, quantum)`. -/
def phase_quant (voice : ℤ) (quantum : ℚ) : Option VoiceMsg :=
  sendVoice "phase_quant" voice quantum

end SoftcutApi

namespace Softcut

lemma frameStep_buf_eq (polling : Bool) (buf : ℕ → ℚ) (vIdx : ℕ) (inS : ℚ)
    (v : Voice) (h : v.playing = true) :
    (frameStep polling buf vIdx inS v).buf = recordWrite buf v inS := by
  simp [frameStep, h]

lemma frameStep_phase_eq (polling : Bool) (buf : ℕ → ℚ) (vIdx : ℕ) (inS : ℚ)
    (v : Voice) (h : v.playing = true) :
    (frameStep polling buf vIdx inS v).voice.phase =
      (boundaryUpdate v (v.phase + v.rate)).1 := by
  simp [frameStep, h]

lemma frameStep_playing_eq (polling : Bool) (buf : ℕ → ℚ) (vIdx : ℕ) (inS : ℚ)
    (v : Voice) (h : v.playing = true) :
    (frameStep polling buf vIdx inS v).voice.playing =
      (boundaryUpdate v (v.phase + v.rate)).2 := by
  simp [frameStep, h]

lemma frameStep_accum_eq (polling : Bool) (buf : ℕ → ℚ) (vIdx : ℕ) (inS : ℚ)
    (v : Voice) (h : v.playing = true) :
    (frameStep polling buf vIdx inS v).voice.phase_accum =
      (phaseReport polling vIdx v (boundaryUpdate v (v.phase + v.rate)).1).1 := by
  simp [frameStep, h]

lemma frameStep_events_eq (polling : Bool) (buf : ℕ → ℚ) (vIdx : ℕ) (inS : ℚ)
    (v : Voice) (h : v.playing = true) :
    (frameStep polling buf vIdx inS v).events =
      (phaseReport polling vIdx v (boundaryUpdate v (v.phase + v.rate)).1).2 := by
  simp [frameStep, h]

lemma frameStep_sample_eq (polling : Bool) (buf : ℕ → ℚ) (vIdx : ℕ) (inS : ℚ)
    (v : Voice) (h : v.playing = true) :
    (frameStep polling buf vIdx inS v).sample = readSample buf v.phase := by
  simp [frameStep, h]

lemma frameStep_not_playing (polling : Bool) (buf : ℕ → ℚ) (vIdx : ℕ) (inS : ℚ)
    (v : Voice) (h : v.playing = false) :
    (frameStep polling buf vIdx inS v).voice = { v with level := slewLevel v } ∧
    (frameStep polling buf vIdx inS v).buf = buf ∧
    (frameStep polling buf vIdx inS v).sample = 0 ∧
    (frameStep polling buf vIdx inS v).events = [] := by
  simp [frameStep, h]

lemma frameStep_preserves (polling : Bool) (buf : ℕ → ℚ) (vIdx : ℕ) (inS : ℚ)
    (v : Voice) :
    (frameStep polling buf vIdx inS v).voice.rate = v.rate ∧
    (frameStep polling buf vIdx inS v).voice.loop = v.loop ∧
    (frameStep polling buf vIdx inS v).voice.loop_start = v.loop_start ∧
    (frameStep polling buf vIdx inS v).voice.loop_end = v.loop_end ∧
    (frameStep polling buf vIdx inS v).voice.fade_time = v.fade_time ∧
    (frameStep polling buf vIdx inS v).voice.recording = v.recording ∧
    (frameStep polling buf vIdx inS v).voice.rec_level = v.rec_level ∧
    (frameStep polling buf vIdx inS v).voice.pre_level = v.pre_level ∧
    (frameStep polling buf vIdx inS v).voice.phase_quant = v.phase_quant ∧
    (frameStep polling buf vIdx inS v).voice.buffer = v.buffer ∧
    (frameStep polling buf vIdx inS v).voice.enabled = v.enabled := by
  by_cases h : v.playing = true <;> simp [frameStep, h]

lemma clearLoop_apply : ∀ (n : ℕ) (buf : ℕ → ℚ) (i : ℤ) (j : ℕ),
    clearLoop buf i n j = if i ≤ (j : ℤ) ∧ (j : ℤ) < i + n then 0 else buf j := by
  intro n
  induction n with
  | zero =>
    intro buf i j
    simp only [clearLoop, Nat.cast_zero, add_zero]
    rw [if_neg (by omega)]
  | succ n ih =>
    intro buf i j
    simp only [clearLoop]
    rw [ih]
    simp only [writeAt, Nat.cast_succ]
    by_cases hj : (j : ℤ) = i
    · rw [if_neg (by omega), if_pos hj, if_pos (by omega)]
    · rw [if_neg hj]
      by_cases hA : i + 1 ≤ (j : ℤ) ∧ (j : ℤ) < i + 1 + n
      · rw [if_pos hA, if_pos (by omega)]
      · rw [if_neg hA, if_neg (by omega)]

end Softcut

namespace Softcut

/-- C1 counterexample: after a `reset` command (here sent to the freshly
constructed engine), voice 0's `rec_level` is `1`, not `0` as the claim's
"every other voice field equals 0/false" asserts. -/
theorem reset_rec_level_is_one :
    ((handleMessage engineInit .reset).1.voices 0).rec_level = 1 ∧ (1 : ℚ) ≠ 0 := by
  exact ⟨rfl, by norm_num⟩

/-- C1 (amended): after `reset`, both PCM buffers are entirely zero and every
voice is restored to the constructor defaults — `buffer = 0` for voices 0–2
and `1` for voices 3–5, `rate = 1`, `level = level_target = 1`, `pan = 0`,
`loop = false`, `loop_start = 0`, `loop_end = BUF_DURATION` (350 s),
`fade_time = 0.01`, and the remaining fields `0`/`false` **except**
`rec_level`, which resets to `1`. -/
theorem reset_restores_defaults (s : Engine) (b : Fin 2) (j : ℕ) (i : Fin 6) :
    ((handleMessage s .reset).1.buffers b j = 0) ∧
    ((handleMessage s .reset).1.voices i).enabled = false ∧
    ((handleMessage s .reset).1.voices i).playing = false ∧
    ((handleMessage s .reset).1.voices i).buffer = (if (i : ℕ) < 3 then 0 else 1) ∧
    ((handleMessage s .reset).1.voices i).rate = 1 ∧
    ((handleMessage s .reset).1.voices i).level = 1 ∧
    ((handleMessage s .reset).1.voices i).level_target = 1 ∧
    ((handleMessage s .reset).1.voices i).pan = 0 ∧
    ((handleMessage s .reset).1.voices i).position = 0 ∧
    ((handleMessage s .reset).1.voices i).phase = 0 ∧
    ((handleMessage s .reset).1.voices i).loop = false ∧
    ((handleMessage s .reset).1.voices i).loop_start = 0 ∧
    ((handleMessage s .reset).1.voices i).loop_end = BUF_DURATION ∧
    ((handleMessage s .reset).1.voices i).fade_time = 0.01 ∧
    ((handleMessage s .reset).1.voices i).level_slew_time = 0 ∧
    ((handleMessage s .reset).1.voices i).recording = false ∧
    ((handleMessage s .reset).1.voices i).rec_level = 1 ∧
    ((handleMessage s .reset).1.voices i).pre_level = 0 ∧
    ((handleMessage s .reset).1.voices i).phase_quant = 0 ∧
    ((handleMessage s .reset).1.voices i).phase_accum = 0 := by
  exact ⟨rfl, rfl, rfl, rfl, rfl, rfl, rfl, rfl, rfl, rfl, rfl, rfl, rfl, rfl,
    rfl, rfl, rfl, rfl, rfl, rfl⟩

end Softcut

namespace SoftcutApi

/-- C2 counterexample: `softcut.enable(7, true)` — voice index 7 is outside
`[1,6]` — does **not** fail; it enqueues the command `{cmd:"enable", voice:6,
value:1}` to the engine. -/
theorem enable_out_of_range_enqueues :
    enable 7 true = some ⟨"enable", 6, 1⟩ ∧ ¬ ((1 : ℤ) ≤ 7 ∧ (7 : ℤ) ≤ 6) := by
  exact ⟨rfl, by omega⟩

/-- C2 (amended): the voice-targeted control API performs no range validation
at all: for every voice index (in range or not) each call unconditionally
enqueues exactly one command to the engine, carrying `voice - 1` and the
translated value; no call ever fails with `InvalidArgument`. -/
theorem voice_calls_never_validate (cmd : String) (v : ℤ) (x : ℚ) (st : Bool)
    (b amp pos tsec q r : ℚ) :
    sendVoice cmd v x = some ⟨cmd, v - 1, x⟩ ∧
    enable v st = some ⟨"enable", v - 1, if st then 1 else 0⟩ ∧
    play v st = some ⟨"play", v - 1, if st then 1 else 0⟩ ∧
    recSet v st = some ⟨"rec", v - 1, if st then 1 else 0⟩ ∧
    bufferSelect v b = some ⟨"buffer", v - 1, b - 1⟩ ∧
    rate v r = some ⟨"rate", v - 1, r⟩ ∧
    level v amp = some ⟨"level", v - 1, amp⟩ ∧
    pan v pos = some ⟨"pan", v - 1, pos⟩ ∧
    position v pos = some ⟨"position", v - 1, pos⟩ ∧
    loopSet v st = some ⟨"loop", v - 1, if st then 1 else 0⟩ ∧
    loop_start v pos = some ⟨"loop_start", v - 1, pos⟩ ∧
    loop_end v pos = some ⟨"loop_end", v - 1, pos⟩ ∧
    fade_time v tsec = some ⟨"fade_time", v - 1, tsec⟩ ∧
    level_slew_time v tsec = some ⟨"level_slew_time", v - 1, tsec⟩ ∧
    rec_level v amp = some ⟨"rec_level", v - 1, amp⟩ ∧
    pre_level v amp = some ⟨"pre_level", v - 1, amp⟩ ∧
    phase_quant v q = some ⟨"phase_quant", v - 1, q⟩ := by
  exact ⟨rfl, rfl, rfl, rfl, rfl, rfl, rfl, rfl, rfl, rfl, rfl, rfl, rfl, rfl,
    rfl, rfl, rfl⟩

end SoftcutApi

namespace Softcut

/-- C9: a `buffer_clear_region(start, dur)` command zeroes exactly the sample
indices in `[⌊start·sr⌋, ⌊(start+dur)·sr⌋)` clipped to the buffer length, in
**both** buffers (`b` ranges over `Fin 2`), and leaves every other sample of
both buffers unchanged. -/
theorem buffer_clear_region_pointwise (s : Engine) (start dur : ℚ)
    (b : Fin 2) (j : ℕ) :
    (handleMessage s (.buffer_clear_region start dur)).1.buffers b j =
      if ⌊start * SAMPLE_RATE⌋ ≤ (j : ℤ) ∧
          (j : ℤ) < min ⌊(start + dur) * SAMPLE_RATE⌋ BUF_FRAMES then 0
      else s.buffers b j := by
  show clearRegionBuf (s.buffers b) ⌊start * SAMPLE_RATE⌋ ⌊(start + dur) * SAMPLE_RATE⌋ j = _
  rw [clearRegionBuf, clearLoop_apply]
  have hiff : (⌊start * SAMPLE_RATE⌋ ≤ (j : ℤ) ∧
      (j : ℤ) < ⌊start * SAMPLE_RATE⌋ +
        ((min ⌊(start + dur) * SAMPLE_RATE⌋ BUF_FRAMES - ⌊start * SAMPLE_RATE⌋).toNat : ℤ)) ↔
      (⌊start * SAMPLE_RATE⌋ ≤ (j : ℤ) ∧
        (j : ℤ) < min ⌊(start + dur) * SAMPLE_RATE⌋ BUF_FRAMES) := by
    omega
  by_cases h : ⌊start * SAMPLE_RATE⌋ ≤ (j : ℤ) ∧
      (j : ℤ) < min ⌊(start + dur) * SAMPLE_RATE⌋ BUF_FRAMES
  · rw [if_pos (hiff.mpr h), if_pos h]
  · rw [if_neg (fun hc => h (hiff.mp hc)), if_neg h]

end Softcut

namespace Softcut

/-- C10: for a playing voice with `loop` on but a non-positive loop length
(`loop_end ≤ loop_start`), the kernel performs no loop wrap: the phase simply
advances by `rate`, and the one-shot boundary policy applies — `playing`
becomes `false` exactly when the advanced phase reaches `BUF_FRAMES` or falls
below `0`. -/
theorem nonpositive_loop_len_is_oneshot (polling : Bool) (buf : ℕ → ℚ)
    (vIdx : ℕ) (inS : ℚ) (v : Voice) (hplay : v.playing = true)
    (_hloop : v.loop = true) (hlen : v.loop_end ≤ v.loop_start) :
    (frameStep polling buf vIdx inS v).voice.phase = v.phase + v.rate ∧
    (frameStep polling buf vIdx inS v).voice.playing =
      (if v.phase + v.rate ≥ (BUF_FRAMES : ℚ) ∨ v.phase + v.rate < 0
       then false else true) := by
  have hmul : v.loop_end * SAMPLE_RATE ≤ v.loop_start * SAMPLE_RATE :=
    mul_le_mul_of_nonneg_right hlen (by norm_num [SAMPLE_RATE])
  have hll : ¬ (0 < loopLen v) := by
    simp only [loopLen, loopEndSamp, loopStartSamp]
    linarith
  have hb : boundaryUpdate v (v.phase + v.rate) =
      (v.phase + v.rate,
        if v.phase + v.rate ≥ (BUF_FRAMES : ℚ) ∨ v.phase + v.rate < 0
        then false else v.playing) := by
    unfold boundaryUpdate
    rw [if_neg (fun hc => hll hc.2)]
  refine ⟨?_, ?_⟩
  · rw [frameStep_phase_eq _ _ _ _ _ hplay, hb]
  · rw [frameStep_playing_eq _ _ _ _ _ hplay, hb, hplay]

/-- Concrete voice for the C10 witness: loop on but zero-length loop region. -/
def zeroLoopVoice : Voice :=
  { defaultVoice 0 with
    enabled := true
    playing := true
    loop := true
    loop_start := 1
    loop_end := 1
    rate := 2
    phase := 5 }

/-- C10 witness: the theorem applied to a concrete zero-length-loop voice. -/
theorem nonpositive_loop_len_is_oneshot_witness :
    (frameStep false (fun _ => 0) 0 0 zeroLoopVoice).voice.phase =
        zeroLoopVoice.phase + zeroLoopVoice.rate ∧
    (frameStep false (fun _ => 0) 0 0 zeroLoopVoice).voice.playing =
      (if zeroLoopVoice.phase + zeroLoopVoice.rate ≥ (BUF_FRAMES : ℚ) ∨
          zeroLoopVoice.phase + zeroLoopVoice.rate < 0
       then false else true) :=
  nonpositive_loop_len_is_oneshot false (fun _ => 0) 0 0 zeroLoopVoice rfl rfl
    (by norm_num [zeroLoopVoice, defaultVoice])

/-- C5: for a playing voice, the `sample` produced by a kernel frame is the
linear interpolation `buf[i0]·(1−f) + buf[i0+1]·f` with `i0 = ⌊phase⌋` and
`f = phase − i0` when both indices are in range, `buf[i0]` when only `i0` is
in range, and `0` otherwise (out-of-range phases yield silence, never a
fault). -/
theorem interpolated_read_sample (polling : Bool) (buf : ℕ → ℚ) (vIdx : ℕ)
    (inS : ℚ) (v : Voice) (hplay : v.playing = true) :
    (frameStep polling buf vIdx inS v).sample =
      if 0 ≤ ⌊v.phase⌋ ∧ ⌊v.phase⌋ + 1 < BUF_FRAMES then
        buf ⌊v.phase⌋.toNat * (1 - (v.phase - ⌊v.phase⌋)) +
          buf (⌊v.phase⌋ + 1).toNat * (v.phase - ⌊v.phase⌋)
      else if 0 ≤ ⌊v.phase⌋ ∧ ⌊v.phase⌋ < BUF_FRAMES then
        buf ⌊v.phase⌋.toNat
      else 0 := by
  rw [frameStep_sample_eq _ _ _ _ _ hplay]
  rfl

/-- Concrete voice for the C5 witness: phase `5/2` between samples 2 and 3. -/
def interpVoice : Voice :=
  { defaultVoice 0 with enabled := true, playing := true, phase := 5 / 2 }

/-- C5 witness: the theorem applied at phase `5/2` over the buffer
`buf j = j`. -/
theorem interpolated_read_sample_witness :
    (frameStep false (fun j => (j : ℚ)) 0 0 interpVoice).sample =
      if 0 ≤ ⌊interpVoice.phase⌋ ∧ ⌊interpVoice.phase⌋ + 1 < BUF_FRAMES then
        (fun j => (j : ℚ)) ⌊interpVoice.phase⌋.toNat *
            (1 - (interpVoice.phase - ⌊interpVoice.phase⌋)) +
          (fun j => (j : ℚ)) (⌊interpVoice.phase⌋ + 1).toNat *
            (interpVoice.phase - ⌊interpVoice.phase⌋)
      else if 0 ≤ ⌊interpVoice.phase⌋ ∧ ⌊interpVoice.phase⌋ < BUF_FRAMES then
        (fun j => (j : ℚ)) ⌊interpVoice.phase⌋.toNat
      else 0 :=
  interpolated_read_sample false (fun j => (j : ℚ)) 0 0 interpVoice rfl

/-- Concrete voice for the C4 counterexample: quantum of one sample
(`phase_quant = 1/48000` s) and `rate = 3`. -/
def fastRateVoice : Voice :=
  { defaultVoice 0 with
    enabled := true
    playing := true
    rate := 3
    phase_quant := 1 / 48000 }

/-- C4 counterexample: with `phase_quant × sample_rate = 1` and `rate = 3`,
one frame leaves `phase_accum = 2 ≥ 1` — the source subtracts the quantum
with an `if`, not a `while`, so after the frame `phase_accum <
phase_quant × sample_rate` fails for large rates. -/
theorem phase_accum_can_exceed_quant :
    (frameStep true (fun _ => 0) 0 0 fastRateVoice).voice.phase_accum = 2 ∧
    fastRateVoice.phase_quant * SAMPLE_RATE = 1 ∧
    ¬ ((frameStep true (fun _ => 0) 0 0 fastRateVoice).voice.phase_accum <
        fastRateVoice.phase_quant * SAMPLE_RATE) := by
  have h1 : (frameStep true (fun _ => 0) 0 0 fastRateVoice).voice.phase_accum = 2 := by
    rw [frameStep_accum_eq _ _ _ _ _ rfl]
    norm_num [phaseReport, fastRateVoice, defaultVoice, SAMPLE_RATE]
  have h2 : fastRateVoice.phase_quant * SAMPLE_RATE = 1 := by
    norm_num [fastRateVoice, defaultVoice, SAMPLE_RATE]
  refine ⟨h1, h2, ?_⟩
  rw [h1, h2]
  norm_num

/-- C4 (amended): in each frame for a playing voice with polling on and
`phase_quant > 0`, the accumulator is increased by `|rate|` and then **at
most one** quantum is subtracted (the source uses `if`, not `while`),
emitting at most one `Phase` event carrying `phase / sample_rate`; the
invariant `phase_accum < phase_quant × sample_rate` is maintained provided it
held before the frame and `|rate| ≤ phase_quant × sample_rate` (not for
arbitrary rates). -/
theorem phase_report_single_quantum (buf : ℕ → ℚ) (vIdx : ℕ) (inS : ℚ)
    (v : Voice) (hplay : v.playing = true) (hq : 0 < v.phase_quant)
    (ha : v.phase_accum < v.phase_quant * SAMPLE_RATE)
    (hr : |v.rate| ≤ v.phase_quant * SAMPLE_RATE) :
    ((frameStep true buf vIdx inS v).voice.phase_accum =
      if v.phase_accum + |v.rate| ≥ v.phase_quant * SAMPLE_RATE
      then v.phase_accum + |v.rate| - v.phase_quant * SAMPLE_RATE
      else v.phase_accum + |v.rate|) ∧
    ((frameStep true buf vIdx inS v).events =
      if v.phase_accum + |v.rate| ≥ v.phase_quant * SAMPLE_RATE
      then [EngineEvent.phase vIdx
              ((frameStep true buf vIdx inS v).voice.phase / SAMPLE_RATE)]
      else []) ∧
    (frameStep true buf vIdx inS v).voice.phase_accum <
      v.phase_quant * SAMPLE_RATE := by
  have hrep : phaseReport true vIdx v (boundaryUpdate v (v.phase + v.rate)).1 =
      (if v.phase_accum + |v.rate| ≥ v.phase_quant * SAMPLE_RATE
       then v.phase_accum + |v.rate| - v.phase_quant * SAMPLE_RATE
       else v.phase_accum + |v.rate|,
       if v.phase_accum + |v.rate| ≥ v.phase_quant * SAMPLE_RATE
       then [EngineEvent.phase vIdx
               ((boundaryUpdate v (v.phase + v.rate)).1 / SAMPLE_RATE)]
       else []) := by
    unfold phaseReport
    rw [if_pos ⟨rfl, hq⟩]
    simp only [ge_iff_le]
    split_ifs with h <;> rfl
  refine ⟨?_, ?_, ?_⟩
  · rw [frameStep_accum_eq _ _ _ _ _ hplay, hrep]
  · rw [frameStep_events_eq _ _ _ _ _ hplay, hrep,
      frameStep_phase_eq _ _ _ _ _ hplay]
  · rw [frameStep_accum_eq _ _ _ _ _ hplay, hrep]
    dsimp only
    split_ifs with hge
    · linarith
    · linarith

/-- Concrete voice for the C4 witness: quantum of one sample, `rate = 1`,
accumulator `1/2`. -/
def slowRateVoice : Voice :=
  { defaultVoice 0 with
    enabled := true
    playing := true
    rate := 1
    phase_quant := 1 / 48000
    phase_accum := 1 / 2 }

/-- C4 witness: the amended theorem applied to a concrete voice with
`|rate| ≤ phase_quant × sample_rate`. -/
theorem phase_report_single_quantum_witness :
    ((frameStep true (fun _ => 0) 0 0 slowRateVoice).voice.phase_accum =
      if slowRateVoice.phase_accum + |slowRateVoice.rate| ≥
          slowRateVoice.phase_quant * SAMPLE_RATE
      then slowRateVoice.phase_accum + |slowRateVoice.rate| -
            slowRateVoice.phase_quant * SAMPLE_RATE
      else slowRateVoice.phase_accum + |slowRateVoice.rate|) ∧
    ((frameStep true (fun _ => 0) 0 0 slowRateVoice).events =
      if slowRateVoice.phase_accum + |slowRateVoice.rate| ≥
          slowRateVoice.phase_quant * SAMPLE_RATE
      then [EngineEvent.phase 0
              ((frameStep true (fun _ => 0) 0 0 slowRateVoice).voice.phase /
                SAMPLE_RATE)]
      else []) ∧
    (frameStep true (fun _ => 0) 0 0 slowRateVoice).voice.phase_accum <
      slowRateVoice.phase_quant * SAMPLE_RATE :=
  phase_report_single_quantum (fun _ => 0) 0 0 slowRateVoice rfl
    (by norm_num [slowRateVoice, defaultVoice])
    (by norm_num [slowRateVoice, defaultVoice, SAMPLE_RATE])
    (by norm_num [slowRateVoice, defaultVoice, SAMPLE_RATE])

end Softcut

namespace Clock

/-- C8: `cancel(id)` on a registered id aborts the task's signal and removes
the id from the coroutine registry; an aborted signal makes any pending
`sleep`/`sync` reject with the `AbortError` sentinel, which the `run` wrapper
swallows without logging (clean termination); cancelling the same id a second
time, or cancelling an id that is not registered (e.g. whose task already
completed), is a no-op that leaves the clock state unchanged. -/
theorem cancel_is_clean_and_idempotent (s : Tasks) (id j : ℕ)
    (hnd : s.registry.Nodup) (hid : id ∈ s.registry) (hj : j ∉ s.registry) :
    id ∉ (cancel s id).registry ∧
    id ∈ (cancel s id).aborted ∧
    sleepOutcome true = .error abortError ∧
    runCatchLogs (sleepOutcome true) = false ∧
    cancel (cancel s id) id = cancel s id ∧
    cancel s j = s := by
  have hc : cancel s id = ⟨s.registry.erase id, id :: s.aborted⟩ := by
    unfold cancel
    rw [if_pos hid]
  have hnotmem : id ∉ (cancel s id).registry := by
    rw [hc]
    intro hmem
    exact ((List.Nodup.mem_erase_iff hnd).mp hmem).1 rfl
  have hnm2 := hnotmem
  rw [hc] at hnm2
  refine ⟨hnotmem, ?_, rfl, rfl, ?_, ?_⟩
  · rw [hc]
    exact List.mem_cons_self id _
  · rw [hc]
    unfold cancel
    rw [if_neg hnm2]
  · unfold cancel
    rw [if_neg hj]

/-- C8 witness: the theorem applied to the registry `[5]` with `id = 5` and
absent id `9`. -/
theorem cancel_is_clean_and_idempotent_witness :
    5 ∉ (cancel ⟨[5], []⟩ 5).registry ∧
    5 ∈ (cancel ⟨[5], []⟩ 5).aborted ∧
    sleepOutcome true = .error abortError ∧
    runCatchLogs (sleepOutcome true) = false ∧
    cancel (cancel ⟨[5], []⟩ 5) 5 = cancel ⟨[5], []⟩ 5 ∧
    cancel ⟨[5], []⟩ 9 = ⟨[5], []⟩ :=
  cancel_is_clean_and_idempotent ⟨[5], []⟩ 5 9 (by decide) (by decide) (by decide)

end Clock

namespace Clock

/-- The grid instant computed inside `clock.sync` when the transport runs:
`nextBeat = ⌈(currentBeats − offset)/beat⌉·beat + offset`, advanced by one
more `beat` when within `0.0001` beats of `currentBeats`. -/
def specNextBeat (beat offset c : ℚ) : ℚ :=
  let nextBeat0 : ℚ := (⌈(c - offset) / beat⌉ : ℤ) * beat + offset
  if nextBeat0 ≤ c + 0.0001 then nextBeat0 + beat else nextBeat0

lemma specNextBeat_gt (beat offset c : ℚ) (hbeat : 0 < beat) :
    c < specNextBeat beat offset c := by
  unfold specNextBeat
  have hceil : c - offset ≤ (⌈(c - offset) / beat⌉ : ℚ) * beat := by
    have h1 : (c - offset) / beat ≤ (⌈(c - offset) / beat⌉ : ℚ) := Int.le_ceil _
    have h2 := mul_le_mul_of_nonneg_right h1 (le_of_lt hbeat)
    rwa [div_mul_cancel₀ _ (ne_of_gt hbeat)] at h2
  dsimp only
  split_ifs with h
  · linarith
  · push_neg at h
    linarith

lemma specNextBeat_on_grid (beat offset c : ℚ) :
    ∃ k : ℤ, specNextBeat beat offset c = (k : ℚ) * beat + offset := by
  unfold specNextBeat
  dsimp only
  split_ifs with h
  · exact ⟨⌈(c - offset) / beat⌉ + 1, by push_cast; ring⟩
  · exact ⟨⌈(c - offset) / beat⌉, rfl⟩

/-- C7: with the transport stopped, `sync(beat, offset)` suspends for exactly
`beat × 60/tempo` seconds; with the transport running, it suspends until the
next grid instant `specNextBeat` — i.e. for `(nextBeat − beats) × 60/tempo`
seconds — where `nextBeat` is strictly in the future and lies on the beat
grid (`nextBeat = k·beat + offset` for some integer `k`). -/
theorem sync_wait_semantics (tempo refTime refBeats now beat offset : ℚ)
    (htempo : 0 < tempo) (hbeat : 0 < beat) :
    syncWaitSeconds false tempo refTime refBeats now beat offset =
      beat * (60 / tempo) ∧
    syncWaitSeconds true tempo refTime refBeats now beat offset =
      (specNextBeat beat offset (getBeats true tempo refTime refBeats now) -
        getBeats true tempo refTime refBeats now) * (60 / tempo) ∧
    getBeats true tempo refTime refBeats now <
      specNextBeat beat offset (getBeats true tempo refTime refBeats now) ∧
    ∃ k : ℤ, specNextBeat beat offset (getBeats true tempo refTime refBeats now) =
      (k : ℚ) * beat + offset := by
  have h60 : (0 : ℚ) < 60 / tempo := by positivity
  have hgt := specNextBeat_gt beat offset (getBeats true tempo refTime refBeats now) hbeat
  have hpos : 0 < (specNextBeat beat offset (getBeats true tempo refTime refBeats now) -
      getBeats true tempo refTime refBeats now) * (60 / tempo) := by
    have hd : 0 < specNextBeat beat offset (getBeats true tempo refTime refBeats now) -
        getBeats true tempo refTime refBeats now := by linarith
    exact mul_pos hd h60
  refine ⟨?_, ?_, hgt, specNextBeat_on_grid _ _ _⟩
  · show accurateSleepSeconds (beat * (60 / tempo)) = beat * (60 / tempo)
    unfold accurateSleepSeconds
    rw [if_neg (not_le.mpr (mul_pos hbeat h60))]
  · show (if (specNextBeat beat offset (getBeats true tempo refTime refBeats now) -
        getBeats true tempo refTime refBeats now) * (60 / tempo) > 0
      then accurateSleepSeconds
        ((specNextBeat beat offset (getBeats true tempo refTime refBeats now) -
          getBeats true tempo refTime refBeats now) * (60 / tempo))
      else 0) = _
    rw [if_pos hpos]
    unfold accurateSleepSeconds
    rw [if_neg (not_le.mpr hpos)]

/-- C7 witness: the theorem applied at tempo 120, `beat = 1`, `offset = 0`,
with the beat counter at `0`. -/
theorem sync_wait_semantics_witness :
    syncWaitSeconds false 120 0 0 0 1 0 = 1 * (60 / 120) ∧
    syncWaitSeconds true 120 0 0 0 1 0 =
      (specNextBeat 1 0 (getBeats true 120 0 0 0) - getBeats true 120 0 0 0) * (60 / 120) ∧
    getBeats true 120 0 0 0 < specNextBeat 1 0 (getBeats true 120 0 0 0) ∧
    ∃ k : ℤ, specNextBeat 1 0 (getBeats true 120 0 0 0) = (k : ℚ) * 1 + 0 :=
  sync_wait_semantics 120 0 0 0 1 0 (by norm_num) (by norm_num)

end Clock

namespace Softcut

lemma frameStep_loop_step (polling : Bool) (buf : ℕ → ℚ) (vIdx : ℕ) (inS : ℚ)
    (v : Voice) (hplay : v.playing = true) (hloop : v.loop = true)
    (hlt : loopStartSamp v < loopEndSamp v) (hr0 : 0 < v.rate)
    (hrlen : v.rate < loopLen v) (hp0 : loopStartSamp v ≤ v.phase)
    (hp1 : v.phase < loopEndSamp v) :
    (frameStep polling buf vIdx inS v).voice.playing = true ∧
    loopStartSamp v ≤ (frameStep polling buf vIdx inS v).voice.phase ∧
    (frameStep polling buf vIdx inS v).voice.phase < loopEndSamp v := by
  have hll : 0 < loopLen v := by simp only [loopLen]; linarith
  have hlen' : v.rate < loopEndSamp v - loopStartSamp v := by
    simpa [loopLen] using hrlen
  rw [frameStep_playing_eq _ _ _ _ _ hplay, frameStep_phase_eq _ _ _ _ _ hplay]
  unfold boundaryUpdate
  rw [if_pos ⟨hloop, hll⟩]
  by_cases hcross : v.rate > 0 ∧ v.phase + v.rate ≥ loopEndSamp v
  · rw [if_pos hcross]
    dsimp only
    refine ⟨hplay, by linarith [hcross.2], by linarith [hcross.2]⟩
  · rw [if_neg hcross]
    have hnc : ¬ (v.rate < 0 ∧ v.phase + v.rate < loopStartSamp v) := by
      rintro ⟨h, -⟩
      linarith
    rw [if_neg hnc]
    dsimp only
    push_neg at hcross
    exact ⟨hplay, by linarith, by linarith [hcross hr0]⟩

/-- C3: for a playing voice with loop on, a positive loop length in samples,
`fade_time = 0`, and a positive rate smaller than the loop length, if the
phase starts in `[loop_start, loop_end)` (in samples) then after processing
any number of kernel frames it is still strictly inside `[loop_start,
loop_end)`: the single-step wrap `phase := loop_start + (phase − loop_end)`
always lands back inside the loop region. -/
theorem loop_phase_invariant (polling : Bool) (vIdx : ℕ) (ins : List ℚ) :
    ∀ (buf : ℕ → ℚ) (v : Voice),
      v.playing = true → v.loop = true → v.fade_time = 0 →
      loopStartSamp v < loopEndSamp v → 0 < v.rate → v.rate < loopLen v →
      loopStartSamp v ≤ v.phase → v.phase < loopEndSamp v →
      loopStartSamp v ≤ (processVoice polling vIdx buf v ins).voice.phase ∧
      (processVoice polling vIdx buf v ins).voice.phase < loopEndSamp v := by
  induction ins with
  | nil =>
    intro buf v _ _ _ _ _ _ hp0 hp1
    exact ⟨hp0, hp1⟩
  | cons a rest ih =>
    intro buf v hplay hloop hfade hlt hr0 hrlen hp0 hp1
    have hstep := frameStep_loop_step polling buf vIdx a v hplay hloop hlt hr0 hrlen hp0 hp1
    have hpres := frameStep_preserves polling buf vIdx a v
    have hls : loopStartSamp (frameStep polling buf vIdx a v).voice = loopStartSamp v := by
      simp only [loopStartSamp, hpres.2.2.1]
    have hle : loopEndSamp (frameStep polling buf vIdx a v).voice = loopEndSamp v := by
      simp only [loopEndSamp, hpres.2.2.2.1]
    have hlenEq : loopLen (frameStep polling buf vIdx a v).voice = loopLen v := by
      simp only [loopLen, hls, hle]
    have hrec := ih (frameStep polling buf vIdx a v).buf (frameStep polling buf vIdx a v).voice
      hstep.1 (by rw [hpres.2.1, hloop]) (by rw [hpres.2.2.2.2.1, hfade])
      (by rw [hls, hle]; exact hlt) (by rw [hpres.1]; exact hr0)
      (by rw [hpres.1, hlenEq]; exact hrlen) (by rw [hls]; exact hstep.2.1)
      (by rw [hle]; exact hstep.2.2)
    rw [hls, hle] at hrec
    simpa only [processVoice] using hrec

/-- Concrete voice for the C3 witness: loop region `[0, 10)` samples
(`loop_end = 1/4800` s), `rate = 3`. -/
def loopingVoice : Voice :=
  { defaultVoice 0 with
    enabled := true
    playing := true
    loop := true
    fade_time := 0
    loop_start := 0
    loop_end := 1 / 4800
    rate := 3
    phase := 0 }

/-- C3 witness: four frames starting at phase 0 (phases 3, 6, 9, wrap to 2)
stay inside `[0, 10)` samples. -/
theorem loop_phase_invariant_witness :
    loopStartSamp loopingVoice ≤
      (processVoice false 0 (fun _ => 0) loopingVoice [0, 0, 0, 0]).voice.phase ∧
    (processVoice false 0 (fun _ => 0) loopingVoice [0, 0, 0, 0]).voice.phase <
      loopEndSamp loopingVoice :=
  loop_phase_invariant false 0 [0, 0, 0, 0] (fun _ => 0) loopingVoice rfl rfl
    (by norm_num [loopingVoice, defaultVoice])
    (by norm_num [loopingVoice, defaultVoice, loopStartSamp, loopEndSamp, SAMPLE_RATE])
    (by norm_num [loopingVoice, defaultVoice])
    (by norm_num [loopingVoice, defaultVoice, loopLen, loopStartSamp, loopEndSamp, SAMPLE_RATE])
    (by norm_num [loopingVoice, defaultVoice, loopStartSamp, SAMPLE_RATE])
    (by norm_num [loopingVoice, defaultVoice, loopStartSamp, loopEndSamp, SAMPLE_RATE])

end Softcut


namespace Softcut

lemma processVoice_cons_buf (polling : Bool) (vIdx : ℕ) (buf : ℕ → ℚ)
    (v : Voice) (a : ℚ) (rest : List ℚ) :
    (processVoice polling vIdx buf v (a :: rest)).buf =
      (processVoice polling vIdx (frameStep polling buf vIdx a v).buf
        (frameStep polling buf vIdx a v).voice rest).buf := rfl

lemma processVoice_not_playing (polling : Bool) (vIdx : ℕ) :
    ∀ (ins : List ℚ) (buf : ℕ → ℚ) (w : Voice), w.playing = false →
      (processVoice polling vIdx buf w ins).buf = buf := by
  intro ins
  induction ins with
  | nil => intro buf w _; rfl
  | cons a rest ih =>
    intro buf w hw
    have h1 := frameStep_not_playing polling buf vIdx a w hw
    simp only [processVoice]
    rw [h1.2.1, h1.1]
    exact ih buf _ hw

lemma frameStep_buf_pointwise (polling : Bool) (buf : ℕ → ℚ) (vIdx : ℕ)
    (inS : ℚ) (v : Voice) (j : ℕ) :
    (frameStep polling buf vIdx inS v).buf j =
      if v.playing ∧ v.recording ∧ (j : ℤ) = ⌊v.phase⌋ ∧
          0 ≤ ⌊v.phase⌋ ∧ ⌊v.phase⌋ < BUF_FRAMES
      then v.rec_level * inS + v.pre_level * buf j
      else buf j := by
  by_cases hplay : v.playing = true
  · rw [frameStep_buf_eq _ _ _ _ _ hplay]
    unfold recordWrite
    by_cases hrec : v.recording = true
    · rw [if_pos hrec]
      by_cases hrange : 0 ≤ ⌊v.phase⌋ ∧ ⌊v.phase⌋ < BUF_FRAMES
      · rw [if_pos hrange]
        unfold writeAt
        by_cases hj : (j : ℤ) = ⌊v.phase⌋
        · rw [if_pos hj, if_pos ⟨hplay, hrec, hj, hrange⟩]
          have htn : ⌊v.phase⌋.toNat = j := by omega
          rw [htn]
        · rw [if_neg hj, if_neg (fun hc => hj hc.2.2.1)]
      · rw [if_neg hrange, if_neg (fun hc => hrange hc.2.2.2)]
    · rw [if_neg hrec, if_neg (fun hc => hrec hc.2.1)]
  · have hfalse : v.playing = false := by
      revert hplay; cases v.playing <;> simp
    rw [(frameStep_not_playing polling buf vIdx inS v hfalse).2.1,
      if_neg (fun hc => hplay hc.1)]

lemma processVoice_record_pass (polling : Bool) (vIdx : ℕ) :
    ∀ (ins : List ℚ) (buf : ℕ → ℚ) (v : Voice) (k0 : ℕ),
      v.playing = true → v.recording = true → v.loop = false → v.rate = 1 →
      v.phase = (k0 : ℚ) → (k0 : ℤ) + ins.length ≤ BUF_FRAMES →
      ∀ j : ℕ, (processVoice polling vIdx buf v ins).buf j =
        if k0 ≤ j ∧ j < k0 + ins.length then
          v.rec_level * ins.getD (j - k0) 0 + v.pre_level * buf j
        else buf j := by
  intro ins
  induction ins with
  | nil =>
    intro buf v k0 _ _ _ _ _ _ j
    simp only [processVoice, List.length_nil, add_zero]
    rw [if_neg (by omega)]
  | cons a rest ih =>
    intro buf v k0 hplay hrec hloop hrate hphase hlen j
    have hk0 : (k0 : ℤ) < BUF_FRAMES := by
      simp only [List.length_cons] at hlen
      push_cast at hlen
      omega
    have hfl : ⌊v.phase⌋ = (k0 : ℤ) := by rw [hphase]; exact Int.floor_natCast k0
    have hnc : ¬ ((v.loop = true) ∧ 0 < loopLen v) := by simp [hloop]
    have hbuf : (frameStep polling buf vIdx a v).buf =
        writeAt buf (k0 : ℤ) (v.rec_level * a + v.pre_level * buf k0) := by
      rw [frameStep_buf_eq _ _ _ _ _ hplay]
      unfold recordWrite
      rw [if_pos hrec]
      dsimp only
      rw [hfl, if_pos ⟨Int.natCast_nonneg k0, hk0⟩]
      have htn : ((k0 : ℤ)).toNat = k0 := Int.toNat_natCast k0
      rw [htn]
    have hpres := frameStep_preserves polling buf vIdx a v
    have hphase' : (frameStep polling buf vIdx a v).voice.phase = ((k0 + 1 : ℕ) : ℚ) := by
      rw [frameStep_phase_eq _ _ _ _ _ hplay]
      unfold boundaryUpdate
      rw [if_neg hnc]
      dsimp only
      rw [hphase, hrate]
      push_cast
      ring
    cases rest with
    | nil =>
      simp only [processVoice]
      rw [hbuf]
      unfold writeAt
      by_cases hj : j = k0
      · subst hj
        rw [if_pos rfl, if_pos ⟨le_refl j, by simp⟩]
        simp
      · rw [if_neg (fun hc => hj (by exact_mod_cast hc)),
          if_neg (by simp only [List.length_cons, List.length_nil]; omega)]
    | cons b rest' =>
      have hplay' : (frameStep polling buf vIdx a v).voice.playing = true := by
        rw [frameStep_playing_eq _ _ _ _ _ hplay]
        unfold boundaryUpdate
        rw [if_neg hnc]
        dsimp only
        have hout : ¬ (v.phase + v.rate ≥ (BUF_FRAMES : ℚ) ∨ v.phase + v.rate < 0) := by
          simp only [List.length_cons] at hlen
          push_cast at hlen
          have h1 : ((k0 : ℚ) + 1) < ((BUF_FRAMES : ℤ) : ℚ) := by
            exact_mod_cast (by omega : (k0 : ℤ) + 1 < BUF_FRAMES)
          rw [hphase, hrate]
          push_neg
          exact ⟨h1, by positivity⟩
        rw [if_neg hout, hplay]
      have ihapp := ih (writeAt buf (k0 : ℤ) (v.rec_level * a + v.pre_level * buf k0))
        (frameStep polling buf vIdx a v).voice (k0 + 1) hplay'
        (by rw [hpres.2.2.2.2.2.1]; exact hrec)
        (by rw [hpres.2.1]; exact hloop)
        (by rw [hpres.1]; exact hrate)
        hphase'
        (by simp only [List.length_cons] at hlen ⊢; push_cast at hlen ⊢; omega)
        j
      rw [hpres.2.2.2.2.2.2.1, hpres.2.2.2.2.2.2.2.1] at ihapp
      rw [processVoice_cons_buf, hbuf, ihapp]
      simp only [List.length_cons]
      by_cases hj : j = k0
      · subst hj
        rw [if_neg (by omega), if_pos ⟨le_refl j, by omega⟩]
        unfold writeAt
        rw [if_pos rfl]
        simp
      · have hjne : ¬ ((j : ℤ) = (k0 : ℤ)) := fun hc => hj (by exact_mod_cast hc)
        have hwr : writeAt buf (k0 : ℤ) (v.rec_level * a + v.pre_level * buf k0) j = buf j := by
          unfold writeAt
          rw [if_neg hjne]
        rw [hwr]
        by_cases hin : k0 + 1 ≤ j ∧ j < k0 + 1 + (rest'.length + 1)
        · rw [if_pos hin, if_pos (by omega)]
          have hidx : j - k0 = (j - (k0 + 1)) + 1 := by omega
          rw [hidx, List.getD_cons_succ]
        · rw [if_neg hin, if_neg (by omega)]

end Softcut

namespace Softcut

/-- C6: (i) at engine level, for an enabled, playing, recording voice with
`loop` off, `rate = 1` and integer starting phase `k0`, one pass over `ins`
leaves `buffer[j] = rec_level·ins[j−k0] + pre_level·prev_buffer[j]` on the
written region and every other sample unchanged; (ii) each single frame
writes `buf[ri] := rec_level·input + pre_level·buf[ri]` exactly at
`ri = ⌊phase⌋` when the voice is playing and recording and `ri` is in range,
and leaves the buffer unchanged otherwise (out-of-range indices skip the
write); (iii) a non-playing voice never writes during a block; (iv) a
disabled voice is skipped entirely by `process`. -/
theorem record_overdub_semantics
    (s : Engine) (i : Fin 6) (ins ins2 ins3 : List ℚ) (k0 j : ℕ)
    (polling2 : Bool) (vIdx2 : ℕ) (buf2 buf3 : ℕ → ℚ) (inS3 : ℚ)
    (w v3 : Voice) (j2 j3 : ℕ) (t : Engine) (it : Fin 6)
    (hen : (s.voices i).enabled = true)
    (hplay : (s.voices i).playing = true)
    (hrec : (s.voices i).recording = true)
    (hloop : (s.voices i).loop = false)
    (hrate : (s.voices i).rate = 1)
    (hphase : (s.voices i).phase = (k0 : ℚ))
    (hlen : (k0 : ℤ) + ins.length ≤ BUF_FRAMES)
    (hw : w.playing = false)
    (ht : (t.voices it).enabled = false) :
    ((processVoiceIdx s ins i).1.buffers (s.voices i).buffer j =
      if k0 ≤ j ∧ j < k0 + ins.length then
        (s.voices i).rec_level * ins.getD (j - k0) 0 +
          (s.voices i).pre_level * s.buffers (s.voices i).buffer j
      else s.buffers (s.voices i).buffer j) ∧
    ((frameStep polling2 buf3 vIdx2 inS3 v3).buf j3 =
      if v3.playing ∧ v3.recording ∧ (j3 : ℤ) = ⌊v3.phase⌋ ∧
          0 ≤ ⌊v3.phase⌋ ∧ ⌊v3.phase⌋ < BUF_FRAMES
      then v3.rec_level * inS3 + v3.pre_level * buf3 j3
      else buf3 j3) ∧
    ((processVoice polling2 vIdx2 buf2 w ins2).buf j2 = buf2 j2) ∧
    (processVoiceIdx t ins3 it = (t, [])) := by
  refine ⟨?_, frameStep_buf_pointwise polling2 buf3 vIdx2 inS3 v3 j3,
    by rw [processVoice_not_playing polling2 vIdx2 ins2 buf2 w hw], ?_⟩
  · show ((if (s.voices i).enabled then _ else _ : Engine × List EngineEvent)).1.buffers
        (s.voices i).buffer j = _
    rw [if_pos hen]
    show Function.update s.buffers (s.voices i).buffer
        (processVoice s.phasePolling (i : ℕ) (s.buffers (s.voices i).buffer)
          (s.voices i) ins).buf (s.voices i).buffer j = _
    rw [Function.update_same]
    exact processVoice_record_pass s.phasePolling (i : ℕ) ins
      (s.buffers (s.voices i).buffer) (s.voices i) k0 hplay hrec hloop hrate
      hphase hlen j
  · show (if (t.voices it).enabled then _ else _ : Engine × List EngineEvent) = _
    rw [if_neg (by simp [ht])]

/-- Concrete recording voice for the C6 witness. -/
def recVoice : Voice :=
  { defaultVoice 0 with
    enabled := true
    playing := true
    recording := true
    rec_level := 1 / 2
    pre_level := 1 / 4 }

/-- Engine with voice 0 recording, for the C6 witness. -/
def recEngine : Engine :=
  { engineInit with voices := Function.update engineInit.voices 0 recVoice }

/-- C6 witness: the theorem applied to `recEngine` with input `[2, 3]` at
`k0 = 0`, plus concrete instances of the frame-level, non-playing and
disabled-voice parts. -/
theorem record_overdub_semantics_witness :
    ((processVoiceIdx recEngine [2, 3] 0).1.buffers (recEngine.voices 0).buffer 0 =
      if 0 ≤ 0 ∧ 0 < 0 + ([2, 3] : List ℚ).length then
        (recEngine.voices 0).rec_level * ([2, 3] : List ℚ).getD (0 - 0) 0 +
          (recEngine.voices 0).pre_level * recEngine.buffers (recEngine.voices 0).buffer 0
      else recEngine.buffers (recEngine.voices 0).buffer 0) ∧
    ((frameStep false (fun _ => 0) 0 0 (defaultVoice 0)).buf 0 =
      if (defaultVoice 0).playing ∧ (defaultVoice 0).recording ∧
          ((0 : ℕ) : ℤ) = ⌊(defaultVoice 0).phase⌋ ∧
          0 ≤ ⌊(defaultVoice 0).phase⌋ ∧ ⌊(defaultVoice 0).phase⌋ < BUF_FRAMES
      then (defaultVoice 0).rec_level * 0 + (defaultVoice 0).pre_level * (fun _ => (0 : ℚ)) 0
      else (fun _ => (0 : ℚ)) 0) ∧
    ((processVoice false 0 (fun _ => 0) (defaultVoice 0) [7]).buf 0 = (fun _ => (0 : ℚ)) 0) ∧
    (processVoiceIdx engineInit [7] 0 = (engineInit, [])) :=
  record_overdub_semantics recEngine 0 [2, 3] [7] [7] 0 0 false 0
    (fun _ => 0) (fun _ => 0) 0 (defaultVoice 0) (defaultVoice 0) 0 0 engineInit 0
    rfl rfl rfl rfl rfl (by norm_num [recEngine, engineInit, recVoice, defaultVoice])
    (by norm_num [BUF_FRAMES]) rfl rfl

end Softcut
